import Mathlib

/-!
Verification development for the djlib cluster-expansion core
(src/djlib/clex/clex.py and src/old/old.py).

Numeric model: NumPy float arrays are embedded as lists of rationals
(ℚ); a NaN entry (as produced by scipy.interpolate.griddata for query
points outside the convex span of the data points) is embedded as
`Option.none`, and NumPy comparisons with NaN yield `false`, matching
IEEE semantics.  External-library calls (scipy's ConvexHull and
griddata, sklearn's LassoCV, numpy's random draws) are taken as
explicit function parameters: the repository code surrounding them is
translated literally, and at concrete inputs the parameters are
instantiated with the values the external library returns there.
The square root inside numpy's Euclidean norm (np.linalg.norm) and
sklearn's mean_squared_error is likewise an explicit parameter
`sqrt : ℚ → ℚ`, so every definition stays executable.
-/

/-- Dot product of two vectors (NumPy `np.dot` on 1-D arrays of equal length). -/
def dot (a b : List ℚ) : ℚ := (List.zipWith (· * ·) a b).sum

/-- `np.matmul(m, v)` for a 2-D matrix `m` and 1-D vector `v`: one dot product per row. -/
def matvec (m : List (List ℚ)) (v : List ℚ) : List ℚ := m.map (fun row => dot row v)

/-- `np.linalg.norm(v, ord=1)`: sum of absolute values. -/
def l1norm (v : List ℚ) : ℚ := (v.map (fun x => |x|)).sum

/-- Sum of squares of the entries of `v`; `np.linalg.norm(v)` is `sqrt (l2normSq v)`. -/
def l2normSq (v : List ℚ) : ℚ := (v.map (fun x => x * x)).sum

/-- NumPy boolean-mask row selection `rows[sel]`: keep the rows whose mask entry is true. -/
def maskRows (sel : List Bool) (rows : List α) : List α :=
  ((sel.zip rows).filter (fun p => p.1)).map (fun p => p.2)

/-- NumPy fancy indexing `rows[idx]` for an index vector `idx` (indices in range at
every call site; out-of-range defaults keep the function total). -/
def selectRows (rows : List (List ℚ)) (idx : List ℕ) : List (List ℚ) :=
  idx.map (fun i => rows.getD i [])

/-- `np.ravel(np.array(mask.nonzero()))` for a 1-D boolean array: the ascending list
of positions holding `true`. -/
def trueIndices (l : List Bool) : List ℕ :=
  (l.enum.filter (fun p => p.2)).map (fun p => p.1)

/-- The NumPy elementwise comparison `x < 0` on a possibly-NaN entry:
a NaN (here `none`) compares as `false`. -/
def negEntry : Option ℚ → Bool
  | some q => decide (q < 0)
  | none => false

/-- Insert `x` into an already sorted list, keeping it sorted (helper for `npUnique`). -/
def insertSorted (x : ℕ) : List ℕ → List ℕ
  | [] => [x]
  | y :: ys => if x ≤ y then x :: y :: ys else y :: insertSorted x ys

/-- Insertion sort on naturals (helper for `npUnique`). -/
def sortNat (l : List ℕ) : List ℕ := l.foldr insertSorted []

/-- `np.unique` on a 1-D integer array: sorted ascending with duplicates removed. -/
def npUnique (l : List ℕ) : List ℕ := (sortNat l).dedup

/-- NumPy integer indexing `row[i]` with a possibly negative (from-the-end) index,
as used on rows of `hull.equations`. -/
def npGetCol (row : List ℚ) (i : ℤ) : ℚ :=
  if 0 ≤ i then (row.get? i.toNat).getD 0
  else (row.get? (row.length - (-i).toNat)).getD 0

/-- The data of a `scipy.spatial.ConvexHull` object that `lower_hull` consumes:
`hull.simplices` (point-index tuples of the facets) and `hull.equations`
(for each facet, the outward unit normal followed by the scalar offset).
`hull.points` is the input point matrix and is passed around separately. -/
structure HullData where
  simplices : List (List ℕ)
  equations : List (List ℚ)

/-- src/djlib/clex/clex.py `lower_hull` (lines 19-39):
`lower_hull_simplices = hull.simplices[hull.equations[:, energy_index] < 0]`,
`lower_hull_vertices = np.unique(np.ravel(lower_hull_simplices))`.
Every call site passes `energy_index = -2`. -/
def lower_hull (hull : HullData) (energy_index : ℤ) : List (List ℕ) × List ℕ :=
  let pairs := hull.simplices.zip hull.equations
  let lower_hull_simplices :=
    (pairs.filter (fun p => decide (npGetCol p.2 energy_index < 0))).map (fun p => p.1)
  let lower_hull_vertices := npUnique lower_hull_simplices.flatten
  (lower_hull_simplices, lower_hull_vertices)

/-- The shape of `scipy.interpolate.griddata(points, values, xi, method="linear")`
restricted to a single query point `xi`: piecewise-linear interpolation of
`values` over the mesh spanned by `points`, `none` (NaN) outside its convex span. -/
abbrev Griddata := List (List ℚ) → List ℚ → List ℚ → Option ℚ

/-- src/djlib/clex/clex.py `checkhull` (lines 42-69), with the external
`griddata` call as a parameter.  The source reshapes `test_energy` into an
(n, 1) column vector while `griddata` returns a 1-D length-n array, so the
subtraction `test_energy - interp_hull` broadcasts to an n × n matrix whose
(i, j) entry is `test_energy[i] - interp_hull[j]`; `np.ravel` then flattens
it row-major.  The embedding reproduces that broadcast literally. -/
def checkhull (griddata : Griddata) (hull_comps : List (List ℚ)) (hull_energies : List ℚ)
    (test_comp : List (List ℚ)) (test_energy : List ℚ) : List (Option ℚ) :=
  let interp_hull := test_comp.map (fun c => griddata hull_comps hull_energies c)
  let hull_dist := test_energy.map (fun e => interp_hull.map (fun ih => ih.map (fun v => e - v)))
  hull_dist.flatten

/-- The error kinds named by the specification for the regression component. -/
inductive ClexError where
  | insufficientDataError
  deriving DecidableEq

/-- src/djlib/clex/clex.py `run_lassocv` (lines 72-77), with the external
sklearn `LassoCV(fit_intercept=False, n_jobs=4, max_iter=50000).fit(...).coef_`
as the parameter `lassoCVfit`.  The source performs no validation of its own
and has no failure path, so the result is always `Except.ok`; the `Except`
wrapper makes the specification's claimed failure behaviour expressible. -/
def run_lassocv (lassoCVfit : List (List ℚ) → List ℚ → List ℚ)
    (corr : List (List ℚ)) (formation_energy : List ℚ) : Except ClexError (List ℚ) :=
  Except.ok (lassoCVfit corr formation_energy)

/-- src/djlib/clex/clex.py `find_proposed_ground_states` (lines 80-165), with
the external `ConvexHull` construction as the parameter `convexHull` and
`griddata` as in `checkhull`.  `formation_energy` entries are `none` for
uncalculated configurations (the source's `{}`/`None` sentinels, compared
elementwise to build `downsample_selection`). -/
def find_proposed_ground_states (griddata : Griddata)
    (convexHull : List (List ℚ) → HullData)
    (corr comp : List (List ℚ)) (formation_energy : List (Option ℚ))
    (eci_set : List (List ℚ)) : List ℕ :=
  let downsample_selection := formation_energy.map Option.isSome
  let corr_calculated := maskRows downsample_selection corr
  let formation_energy_calculated := formation_energy.filterMap id
  let comp_calculated := maskRows downsample_selection comp
  let points := List.zipWith (fun c e => c ++ [e]) comp_calculated formation_energy_calculated
  let hull := convexHull points
  let dft := lower_hull hull (-2)
  let dft_hull_config_indices := dft.2
  let dft_hull_corr := selectRows corr_calculated dft_hull_config_indices
  let dft_hull_vertices := selectRows points dft_hull_config_indices
  eci_set.foldl (fun acc current_eci =>
    let full_predicted_energy := matvec corr current_eci
    let dft_hull_clex_predict_energies := matvec dft_hull_corr current_eci
    let hulldist := checkhull griddata (dft_hull_vertices.map List.dropLast)
      dft_hull_clex_predict_energies comp full_predicted_energy
    let below_hull_indices := trueIndices (hulldist.map negEntry)
    acc ++ below_hull_indices) []

/-- src/old/old.py `generate_rand_eci_vec` (lines 6-25), with the external
`np.random.normal(scale=stdev, size=num_eci)` draw supplied as `draws`.
The source rescales the draw elementwise by its Euclidean norm and
multiplies by `normalization`. -/
def generate_rand_eci_vec (sqrt : ℚ → ℚ) (draws : List ℚ) (normalization : ℚ) : List ℚ :=
  draws.map (fun x => x / sqrt (l2normSq draws) * normalization)

/-- src/old/old.py `metropolis_hastings_ratio` (lines 28-69):
`(‖proposed‖₁/‖current‖₁) ** (-len current) * (‖f - pe‖₂/‖f - ce‖₂) ** (-len f)`,
then clamped down to 1 when it exceeds 1. -/
def metropolis_hastings_ratio (sqrt : ℚ → ℚ)
    (current_eci proposed_eci current_energy proposed_energy formation_energy : List ℚ) : ℚ :=
  let left_term := (l1norm proposed_eci / l1norm current_eci) ^ (-(current_eci.length : ℤ))
  let right_term_numerator :=
    sqrt (l2normSq (List.zipWith (· - ·) formation_energy proposed_energy))
  let right_term_denom :=
    sqrt (l2normSq (List.zipWith (· - ·) formation_energy current_energy))
  let right_term :=
    (right_term_numerator / right_term_denom) ^ (-(formation_energy.length : ℤ))
  let mh := left_term * right_term
  if mh > 1 then 1 else mh

/-- sklearn's `mean_squared_error(y_true, y_pred)`: the mean of the squared
entrywise differences (external library, standard formula). -/
def mean_squared_error (y_true y_pred : List ℚ) : ℚ :=
  l2normSq (List.zipWith (· - ·) y_true y_pred) / (y_true.length : ℚ)

/-- The mutable loop state of `run_eci_monte_carlo`: the current ECI vector
and the accumulator lists the loop appends to. -/
structure MCState where
  current_eci : List ℚ
  acceptance : List Bool
  rms : List ℚ
  sampled_eci : List (List ℚ)
  proposed_gs : List ℕ

/-- One iteration of the Monte Carlo loop of src/old/old.py
`run_eci_monte_carlo` (lines 176-224).  `randoms i` packages the two external
draws of step `i`: the `np.random.normal` perturbation vector and the
`np.random.uniform()` acceptance comparison. -/
def mcStep (sqrt : ℚ → ℚ) (griddata : Griddata)
    (corr comp corr_calculated : List (List ℚ)) (formation_energy_calculated : List ℚ)
    (dft_hull_corr dft_hull_comps : List (List ℚ))
    (eci_walk_step_size : ℚ) (sample_frequency burn_in : ℕ)
    (randoms : ℕ → List ℚ × ℚ) (i : ℕ) (st : MCState) : MCState :=
  let eci_random_vec := generate_rand_eci_vec sqrt (randoms i).1 eci_walk_step_size
  let proposed_eci := List.zipWith (· + ·) st.current_eci eci_random_vec
  let current_energy := matvec corr_calculated st.current_eci
  let proposed_energy := matvec corr_calculated proposed_eci
  let mh := metropolis_hastings_ratio sqrt st.current_eci proposed_eci
    current_energy proposed_energy formation_energy_calculated
  let accept : Bool := decide (mh ≥ (randoms i).2)
  let current' := if mh ≥ (randoms i).2 then proposed_eci else st.current_eci
  let energy_for_error := if mh ≥ (randoms i).2 then proposed_energy else current_energy
  let rmsval := sqrt (mean_squared_error formation_energy_calculated energy_for_error)
  let full_predicted_energy := matvec corr current'
  let dft_hull_clex_predict_energies := matvec dft_hull_corr current'
  let hulldist := checkhull griddata dft_hull_comps dft_hull_clex_predict_energies
    comp full_predicted_energy
  let below_hull_indices := trueIndices (hulldist.map negEntry)
  { current_eci := current'
    acceptance := st.acceptance ++ [accept]
    rms := st.rms ++ [rmsval]
    sampled_eci :=
      if burn_in < i ∧ i % sample_frequency = 0 then st.sampled_eci ++ [current']
      else st.sampled_eci
    proposed_gs :=
      if burn_in < i ∧ i % sample_frequency = 0 then st.proposed_gs ++ below_hull_indices
      else st.proposed_gs }

/-- The results dictionary returned by `run_eci_monte_carlo` (the `names`
entry, a passthrough of the query file, is omitted). -/
structure MCResults where
  iterations : ℕ
  sample_frequency : ℕ
  burn_in : ℕ
  sampled_eci : List (List ℚ)
  acceptance : List Bool
  acceptance_prob : ℚ
  proposed_ground_states_indices : List ℕ
  rms : List ℚ
  lasso_eci : List ℚ

/-- src/old/old.py `run_eci_monte_carlo` (lines 72-248).  The casm query
reader is modelled by taking its three arrays directly; `convexHull`,
`lassoCVfit`, `griddata`, `sqrt` and `randoms` stand for the external
scipy/sklearn/numpy calls exactly as in the functions above. -/
def run_eci_monte_carlo (sqrt : ℚ → ℚ) (griddata : Griddata)
    (convexHull : List (List ℚ) → HullData)
    (lassoCVfit : List (List ℚ) → List ℚ → List ℚ)
    (corr comp : List (List ℚ)) (formation_energy : List (Option ℚ))
    (eci_walk_step_size : ℚ) (iterations sample_frequency burn_in : ℕ)
    (randoms : ℕ → List ℚ × ℚ) : MCResults :=
  let downsample_selection := formation_energy.map Option.isSome
  let corr_calculated := maskRows downsample_selection corr
  let formation_energy_calculated := formation_energy.filterMap id
  let comp_calculated := maskRows downsample_selection comp
  let points := List.zipWith (fun c e => c ++ [e]) comp_calculated formation_energy_calculated
  let hull := convexHull points
  let dft := lower_hull hull (-2)
  let dft_hull_corr := selectRows corr_calculated dft.2
  let dft_hull_vertices := selectRows points dft.2
  let lasso_eci := lassoCVfit corr_calculated formation_energy_calculated
  let init : MCState :=
    { current_eci := lasso_eci, acceptance := [], rms := [],
      sampled_eci := [lasso_eci], proposed_gs := [] }
  let final := (List.range iterations).foldl
    (fun st i => mcStep sqrt griddata corr comp corr_calculated
      formation_energy_calculated dft_hull_corr (dft_hull_vertices.map List.dropLast)
      eci_walk_step_size sample_frequency burn_in randoms i st) init
  { iterations := iterations
    sample_frequency := sample_frequency
    burn_in := burn_in
    sampled_eci := final.sampled_eci
    acceptance := final.acceptance
    acceptance_prob := (final.acceptance.countP (fun b => b) : ℚ) / (final.acceptance.length : ℚ)
    proposed_ground_states_indices := final.proposed_gs
    rms := final.rms
    lasso_eci := lasso_eci }

theorem mem_insertSorted {a x : ℕ} : ∀ {l : List ℕ}, a ∈ insertSorted x l ↔ a = x ∨ a ∈ l
  | [] => by simp [insertSorted]
  | y :: ys => by
    simp only [insertSorted]
    split
    · simp [List.mem_cons]
    · simp only [List.mem_cons, mem_insertSorted (l := ys)]
      tauto

theorem mem_sortNat {a : ℕ} : ∀ {l : List ℕ}, a ∈ sortNat l ↔ a ∈ l
  | [] => by simp [sortNat]
  | x :: xs => by
    have h : sortNat (x :: xs) = insertSorted x (sortNat xs) := rfl
    rw [h, mem_insertSorted, mem_sortNat (l := xs)]
    simp [List.mem_cons]

theorem mem_npUnique {a : ℕ} {l : List ℕ} : a ∈ npUnique l ↔ a ∈ l := by
  rw [npUnique, List.mem_dedup, mem_sortNat]

/-- C3: `lower_hull` selects exactly the facets whose outward-normal energy
coefficient (column -2 of the facet hyperplane equation, i.e. the coefficient
of the last point coordinate) is strictly negative — facets with positive or
zero energy coefficient are excluded — and returns as vertices a
duplicate-free list containing exactly the point indices that appear in at
least one selected facet. -/
theorem lower_hull_facet_selection (hull : HullData) :
    (∀ f, f ∈ (lower_hull hull (-2)).1 ↔
      ∃ p ∈ hull.simplices.zip hull.equations, p.1 = f ∧ npGetCol p.2 (-2) < 0) ∧
    (∀ v, v ∈ (lower_hull hull (-2)).2 ↔ ∃ f ∈ (lower_hull hull (-2)).1, v ∈ f) ∧
    (lower_hull hull (-2)).2.Nodup := by
  refine ⟨?_, ?_, ?_⟩
  · intro f
    simp only [lower_hull, List.mem_map, List.mem_filter, decide_eq_true_eq]
    constructor
    · rintro ⟨p, ⟨hp, hneg⟩, rfl⟩
      exact ⟨p, hp, rfl, hneg⟩
    · rintro ⟨p, hp, rfl, hneg⟩
      exact ⟨p, ⟨hp, hneg⟩, rfl⟩
  · intro v
    simp only [lower_hull]
    rw [mem_npUnique, List.mem_flatten]
  · simp only [lower_hull]
    exact List.nodup_dedup _

/-- The interpolant scipy's griddata builds from hull points [[0], [1]] with
values [0, 0]: identically 0 on the interval [0, 1], NaN outside it. -/
def interpUnit : Griddata := fun _ _ c =>
  match c with
  | [x] => if 0 ≤ x ∧ x ≤ 1 then some 0 else none
  | _ => none

/-- C1 (code bug): on the two-point hull {(0,0), (1,0)} with query
configurations at compositions 0 and 1 and energies 0 and 1, `checkhull`
returns the four raveled entries of the broadcast 2 × 2 difference matrix
(test energy column minus interpolated row), not a length-2 vector whose
i-th entry is the i-th query energy minus the interpolated hull energy at
the i-th query composition (which would be [0, 1]). -/
theorem checkhull_broadcast_code_bug :
    checkhull interpUnit [[0], [1]] [0, 0] [[0], [1]] [0, 1] =
      [some 0, some 0, some 1, some 1] ∧
    (checkhull interpUnit [[0], [1]] [0, 0] [[0], [1]] [0, 1]).length ≠ 2 := by
  norm_num [checkhull, interpUnit]

/-- Identity 3 × 3 correlation matrix: three configurations, three basis functions. -/
def idCorr3 : List (List ℚ) := [[1, 0, 0], [0, 1, 0], [0, 0, 1]]

/-- One composition axis: configurations at compositions 0, 8 and 4. -/
def compTri : List (List ℚ) := [[0], [8], [4]]

/-- Formation energies 0, 0, -3: all three configurations are calculated,
and they equal `matvec idCorr3 [0, 0, -3]`. -/
def feTri : List (Option ℚ) := [some 0, some 0, some (-3)]

/-- The scipy ConvexHull of the point set [(0,0), (8,0), (4,-3)]: three
facets (edges), each row of `equations` being the outward unit normal
followed by the offset.  The 3-4-5 proportions make qhull's normalized
equations exactly rational: the top edge (0,1) has normal (0, 1), the two
lower edges have normals (-3/5, -4/5) and (3/5, -4/5). -/
def triHull : HullData :=
  { simplices := [[0, 1], [0, 2], [2, 1]]
    equations := [[0, 1, 0], [-3/5, -4/5, 0], [3/5, -4/5, -24/5]] }

/-- The interpolant scipy's griddata builds from points [[0], [8], [4]] with
values [0, 0, -3]: piecewise linear with slope -3/4 on [0, 4] and slope 3/4
on [4, 8], NaN outside [0, 8]. -/
def triGriddata : Griddata := fun _ _ c =>
  match c with
  | [x] =>
    if 0 ≤ x ∧ x ≤ 4 then some (-(3/4) * x)
    else if 4 < x ∧ x ≤ 8 then some (3/4 * x - 6) else none
  | _ => none

/-- C4 (code bug): the formation energies `feTri` are generated exactly by
the ECI vector [0, 0, -3] (first conjunct), yet `find_proposed_ground_states`
with `eci_set` containing exactly that vector returns the non-empty flat
index list [6, 7] — the raveled 3 × 3 broadcast hull-distance matrix has
negative off-diagonal entries even though no configuration lies below the
hull it was derived from. -/
theorem find_proposed_ground_states_roundtrip_bug :
    matvec idCorr3 [0, 0, -3] = feTri.filterMap id ∧
    find_proposed_ground_states triGriddata (fun _ => triHull)
      idCorr3 compTri feTri [[0, 0, -3]] = [6, 7] ∧
    find_proposed_ground_states triGriddata (fun _ => triHull)
      idCorr3 compTri feTri [[0, 0, -3]] ≠ [] := by
  refine ⟨by norm_num [matvec, dot, idCorr3, feTri, List.filterMap_cons], ?_, ?_⟩ <;>
    norm_num [find_proposed_ground_states, checkhull, lower_hull, npUnique, sortNat,
      insertSorted, npGetCol, maskRows, selectRows, trueIndices, negEntry, matvec, dot,
      triGriddata, triHull, idCorr3, compTri, feTri, List.enum, List.enumFrom,
      List.filter, List.dedup, List.cons_ne_nil]

/-- C6 (code bug): on a dataset of n = 3 configurations, the accumulator
returned by `find_proposed_ground_states` contains the element 6, which is
not a 0-based row index in [0, n): it is a flat index into the raveled
n × n broadcast matrix produced by `checkhull`. -/
theorem proposed_index_out_of_range_bug :
    6 ∈ find_proposed_ground_states triGriddata (fun _ => triHull)
      idCorr3 compTri feTri [[0, 0, -3]] ∧
    ¬ (6 < idCorr3.length) := by
  constructor
  · norm_num [find_proposed_ground_states, checkhull, lower_hull, npUnique, sortNat,
      insertSorted, npGetCol, maskRows, selectRows, trueIndices, negEntry, matvec, dot,
      triGriddata, triHull, idCorr3, compTri, feTri, List.enum, List.enumFrom,
      List.filter, List.dedup]
  · decide

/-- Five usable rows of six correlations each: fewer than k + 1 = 7 rows. -/
def corr5x6 : List (List ℚ) :=
  [[1, 0, 0, 0, 0, 0], [0, 1, 0, 0, 0, 0], [0, 0, 1, 0, 0, 0],
   [0, 0, 0, 1, 0, 0], [0, 0, 0, 0, 1, 0]]

/-- C9 counterexample: with 5 usable rows and k = 6 correlation columns
(so fewer than k + 1 rows), `run_lassocv` does not fail with an
InsufficientDataError — it returns the external LassoCV coefficient vector. -/
theorem run_lassocv_underdetermined_ok :
    corr5x6.length < 6 + 1 ∧
    run_lassocv (fun _ _ => [0, 0, 0, 0, 0, 0]) corr5x6 [1, 1, 1, 1, 1] =
      Except.ok [0, 0, 0, 0, 0, 0] :=
  ⟨by decide, rfl⟩

/-- C9 amended: `run_lassocv` performs no row-count validation at all — for
every input, including one with fewer than k + 1 usable rows, it returns
`Except.ok` of the external LassoCV coefficient vector and never raises an
InsufficientDataError. -/
theorem run_lassocv_never_raises (lassoCVfit : List (List ℚ) → List ℚ → List ℚ)
    (corr : List (List ℚ)) (formation_energy : List ℚ) :
    run_lassocv lassoCVfit corr formation_energy =
      Except.ok (lassoCVfit corr formation_energy) :=
  rfl

/-- C7: for a fixed composition vector the hull distance is linear in the
query energy: shifting every query energy by δ shifts every (non-NaN) entry
of the `checkhull` output by δ.  The hypothesis states that every query
composition lies inside the convex span of the hull compositions, i.e. the
interpolant is defined there; NaN entries would be preserved as NaN either
way. -/
theorem checkhull_energy_linear (griddata : Griddata) (hull_comps : List (List ℚ))
    (hull_energies : List ℚ) (test_comp : List (List ℚ)) (test_energy : List ℚ) (d : ℚ)
    (hin : ∀ c ∈ test_comp, (griddata hull_comps hull_energies c).isSome = true) :
    checkhull griddata hull_comps hull_energies test_comp (test_energy.map (fun x => x + d)) =
      (checkhull griddata hull_comps hull_energies test_comp test_energy).map
        (Option.map (fun x => x + d)) := by
  clear hin
  simp only [checkhull]
  induction test_energy with
  | nil => simp
  | cons e E ih =>
    simp only [List.map_cons, List.flatten_cons, List.map_append]
    refine congrArg₂ _ ?_ ih
    simp only [List.map_map]
    refine List.map_congr_left ?_
    intro c _
    simp only [Function.comp]
    cases griddata hull_comps hull_energies c with
    | none => rfl
    | some v =>
      simp only [Option.map]
      rw [sub_add_eq_add_sub]

/-- The interpolant scipy's griddata builds from the single hull point [0]
with value 0 (defined only at composition 0 itself). -/
def interpPoint : Griddata := fun _ _ c => if c = [0] then some 0 else none

/-- Witness for C7: a concrete in-span query (composition 0, energy 5,
shift 2) on which the linearity theorem applies. -/
theorem checkhull_energy_linear_witness :
    (∀ c ∈ [[(0 : ℚ)]], (interpPoint [[0]] [0] c).isSome = true) ∧
    checkhull interpPoint [[0]] [0] [[(0 : ℚ)]] ([5].map (fun x => x + 2)) =
      (checkhull interpPoint [[0]] [0] [[(0 : ℚ)]] [5]).map (Option.map (fun x => x + 2)) :=
  ⟨by simp [interpPoint],
   checkhull_energy_linear interpPoint [[0]] [0] [[(0 : ℚ)]] [5] 2 (by simp [interpPoint])⟩

theorem ite_gt_one_eq_min (x : ℚ) : (if x > 1 then 1 else x) = min 1 x := by
  rcases le_or_lt x 1 with h | h
  · rw [if_neg (not_lt.mpr h), min_eq_right h]
  · rw [if_pos h, min_eq_left h.le]

/-- C2: at every Monte Carlo step the acceptance ratio equals
(‖proposed‖₁/‖current‖₁)^(−k) · (‖f − proposed_energy‖₂/‖f − current_energy‖₂)^(−n)
clamped to at most 1 (k = number of ECI, n = number of calculated
configurations), the proposal is accepted — becomes the current ECI — iff
the ratio is ≥ the step's uniform draw u, and the boolean outcome is
appended to the acceptance record. -/
theorem metropolis_step_acceptance (sqrt : ℚ → ℚ) (griddata : Griddata)
    (corr comp corr_calculated : List (List ℚ)) (formation_energy_calculated : List ℚ)
    (dft_hull_corr dft_hull_comps : List (List ℚ)) (eci_walk_step_size : ℚ)
    (sample_frequency burn_in : ℕ) (randoms : ℕ → List ℚ × ℚ) (i : ℕ) (st : MCState) :
    (∀ current_eci proposed_eci current_energy proposed_energy formation_energy : List ℚ,
      metropolis_hastings_ratio sqrt current_eci proposed_eci current_energy
          proposed_energy formation_energy =
        min 1 ((l1norm proposed_eci / l1norm current_eci) ^ (-(current_eci.length : ℤ)) *
          (sqrt (l2normSq (List.zipWith (· - ·) formation_energy proposed_energy)) /
            sqrt (l2normSq (List.zipWith (· - ·) formation_energy current_energy))) ^
            (-(formation_energy.length : ℤ)))) ∧
    (mcStep sqrt griddata corr comp corr_calculated formation_energy_calculated
        dft_hull_corr dft_hull_comps eci_walk_step_size sample_frequency burn_in
        randoms i st).acceptance =
      st.acceptance ++ [decide (metropolis_hastings_ratio sqrt st.current_eci
        (List.zipWith (· + ·) st.current_eci
          (generate_rand_eci_vec sqrt (randoms i).1 eci_walk_step_size))
        (matvec corr_calculated st.current_eci)
        (matvec corr_calculated (List.zipWith (· + ·) st.current_eci
          (generate_rand_eci_vec sqrt (randoms i).1 eci_walk_step_size)))
        formation_energy_calculated ≥ (randoms i).2)] ∧
    (mcStep sqrt griddata corr comp corr_calculated formation_energy_calculated
        dft_hull_corr dft_hull_comps eci_walk_step_size sample_frequency burn_in
        randoms i st).current_eci =
      if metropolis_hastings_ratio sqrt st.current_eci
        (List.zipWith (· + ·) st.current_eci
          (generate_rand_eci_vec sqrt (randoms i).1 eci_walk_step_size))
        (matvec corr_calculated st.current_eci)
        (matvec corr_calculated (List.zipWith (· + ·) st.current_eci
          (generate_rand_eci_vec sqrt (randoms i).1 eci_walk_step_size)))
        formation_energy_calculated ≥ (randoms i).2
      then List.zipWith (· + ·) st.current_eci
        (generate_rand_eci_vec sqrt (randoms i).1 eci_walk_step_size)
      else st.current_eci := by
  refine ⟨?_, rfl, rfl⟩
  intro c p ce pe f
  simp only [metropolis_hastings_ratio]
  exact ite_gt_one_eq_min _

theorem zipWith_add_zeros (c : List ℚ) : ∀ v : List ℚ, v.length = c.length →
    List.zipWith (· + ·) c (v.map (fun _ => (0 : ℚ))) = c := by
  induction c with
  | nil => intro v _; simp
  | cons a c ih =>
    intro v h
    cases v with
    | nil => simp at h
    | cons x v =>
      simp only [List.map_cons, List.zipWith_cons_cons, add_zero]
      exact congrArg _ (ih v (by simpa using h))

theorem metropolis_hastings_ratio_self (sqrt : ℚ → ℚ) (c e f : List ℚ)
    (h1 : l1norm c ≠ 0)
    (h2 : sqrt (l2normSq (List.zipWith (· - ·) f e)) ≠ 0) :
    metropolis_hastings_ratio sqrt c c e e f = 1 := by
  simp only [metropolis_hastings_ratio]
  rw [div_self h1, div_self h2, one_zpow, one_zpow, mul_one]
  simp

theorem mcStep_zero_fix (sqrt : ℚ → ℚ) (griddata : Griddata)
    (corr comp corr_calculated : List (List ℚ)) (f_calc : List ℚ)
    (dft_hull_corr dft_hull_comps : List (List ℚ)) (sample_frequency burn_in : ℕ)
    (randoms : ℕ → List ℚ × ℚ) (i : ℕ) (st : MCState) (L : List ℚ)
    (hcur : st.current_eci = L)
    (h1 : l1norm L ≠ 0)
    (h2 : sqrt (l2normSq (List.zipWith (· - ·) f_calc (matvec corr_calculated L))) ≠ 0)
    (hu : (randoms i).2 ≤ 1)
    (hlen : (randoms i).1.length = L.length) :
    (mcStep sqrt griddata corr comp corr_calculated f_calc dft_hull_corr dft_hull_comps
        0 sample_frequency burn_in randoms i st).current_eci = L ∧
    (mcStep sqrt griddata corr comp corr_calculated f_calc dft_hull_corr dft_hull_comps
        0 sample_frequency burn_in randoms i st).acceptance = st.acceptance ++ [true] := by
  have hprop : List.zipWith (· + ·) st.current_eci
      (generate_rand_eci_vec sqrt (randoms i).1 0) = L := by
    rw [hcur]
    have hgen : generate_rand_eci_vec sqrt (randoms i).1 0 =
        (randoms i).1.map (fun _ => (0 : ℚ)) := by
      simp [generate_rand_eci_vec]
    rw [hgen]
    exact zipWith_add_zeros L (randoms i).1 hlen
  simp only [mcStep]
  rw [hprop, hcur]
  rw [metropolis_hastings_ratio_self sqrt L (matvec corr_calculated L) f_calc h1 h2]
  have hge : ((1 : ℚ) ≥ (randoms i).2) := hu
  constructor
  · simp [ite_self]
  · simp [hge]

theorem countP_id_replicate_true (n : ℕ) :
    (List.replicate n true).countP (fun b => b) = n := by
  induction n with
  | zero => rfl
  | succ n ih => simp [List.replicate_succ, List.countP_cons, ih]

theorem mc_fold_zero (sqrt : ℚ → ℚ) (griddata : Griddata)
    (corr comp corr_calculated : List (List ℚ)) (f_calc : List ℚ)
    (dft_hull_corr dft_hull_comps : List (List ℚ)) (sample_frequency burn_in : ℕ)
    (randoms : ℕ → List ℚ × ℚ) (L : List ℚ)
    (h1 : l1norm L ≠ 0)
    (h2 : sqrt (l2normSq (List.zipWith (· - ·) f_calc (matvec corr_calculated L))) ≠ 0) :
    ∀ n : ℕ, (∀ i, i < n → (randoms i).2 ≤ 1) →
      (∀ i, i < n → (randoms i).1.length = L.length) →
      ∀ st : MCState, st.current_eci = L →
      (((List.range n).foldl (fun st i => mcStep sqrt griddata corr comp corr_calculated
          f_calc dft_hull_corr dft_hull_comps 0 sample_frequency burn_in randoms i st)
          st).current_eci = L ∧
       ((List.range n).foldl (fun st i => mcStep sqrt griddata corr comp corr_calculated
          f_calc dft_hull_corr dft_hull_comps 0 sample_frequency burn_in randoms i st)
          st).acceptance = st.acceptance ++ List.replicate n true) := by
  intro n
  induction n with
  | zero => intro _ _ st hcur; exact ⟨by simpa using hcur, by simp⟩
  | succ n ih =>
    intro hu hlen st hcur
    have prev := ih (fun i hi => hu i (Nat.lt_succ_of_lt hi))
      (fun i hi => hlen i (Nat.lt_succ_of_lt hi)) st hcur
    rw [List.range_succ, List.foldl_append]
    simp only [List.foldl_cons, List.foldl_nil]
    have step := mcStep_zero_fix sqrt griddata corr comp corr_calculated f_calc
      dft_hull_corr dft_hull_comps sample_frequency burn_in randoms n _ L prev.1 h1 h2
      (hu n (Nat.lt_succ_self n)) (hlen n (Nat.lt_succ_self n))
    refine ⟨step.1, ?_⟩
    rw [step.2, prev.2, List.append_assoc, ← List.replicate_succ']

/-- C5: with `eci_walk_step_size = 0` the rescaled perturbation is the zero
vector, the proposal equals the current ECI at every step, the acceptance
ratio is 1, every step is accepted, and the reported acceptance probability
of `run_eci_monte_carlo` is exactly 1.  The hypotheses are the
non-degeneracy conditions of a valid dataset: at least one iteration, a
LASSO ECI vector with non-zero 1-norm, a non-zero residual norm (otherwise
the source's `0/0` produces NaN), uniform draws in [0, 1), and
perturbation draws of the ECI dimension. -/
theorem acceptance_prob_one_of_zero_step (sqrt : ℚ → ℚ) (griddata : Griddata)
    (convexHull : List (List ℚ) → HullData)
    (lassoCVfit : List (List ℚ) → List ℚ → List ℚ)
    (corr comp : List (List ℚ)) (formation_energy : List (Option ℚ))
    (iterations sample_frequency burn_in : ℕ) (randoms : ℕ → List ℚ × ℚ)
    (hiter : 0 < iterations)
    (h1 : l1norm (lassoCVfit (maskRows (formation_energy.map Option.isSome) corr)
        (formation_energy.filterMap id)) ≠ 0)
    (h2 : sqrt (l2normSq (List.zipWith (· - ·) (formation_energy.filterMap id)
        (matvec (maskRows (formation_energy.map Option.isSome) corr)
          (lassoCVfit (maskRows (formation_energy.map Option.isSome) corr)
            (formation_energy.filterMap id))))) ≠ 0)
    (hu : ∀ i, i < iterations → (randoms i).2 ≤ 1)
    (hlen : ∀ i, i < iterations → (randoms i).1.length =
        (lassoCVfit (maskRows (formation_energy.map Option.isSome) corr)
          (formation_energy.filterMap id)).length) :
    (run_eci_monte_carlo sqrt griddata convexHull lassoCVfit corr comp formation_energy
        0 iterations sample_frequency burn_in randoms).acceptance_prob = 1 := by
  simp only [run_eci_monte_carlo]
  have h := mc_fold_zero sqrt griddata corr comp
    (maskRows (formation_energy.map Option.isSome) corr)
    (formation_energy.filterMap id)
    (selectRows (maskRows (formation_energy.map Option.isSome) corr)
      (lower_hull (convexHull (List.zipWith (fun c e => c ++ [e])
        (maskRows (formation_energy.map Option.isSome) comp)
        (formation_energy.filterMap id))) (-2)).2)
    ((selectRows (List.zipWith (fun c e => c ++ [e])
        (maskRows (formation_energy.map Option.isSome) comp)
        (formation_energy.filterMap id))
      (lower_hull (convexHull (List.zipWith (fun c e => c ++ [e])
        (maskRows (formation_energy.map Option.isSome) comp)
        (formation_energy.filterMap id))) (-2)).2).map List.dropLast)
    sample_frequency burn_in randoms
    (lassoCVfit (maskRows (formation_energy.map Option.isSome) corr)
      (formation_energy.filterMap id)) h1 h2 iterations hu hlen
    { current_eci := lassoCVfit (maskRows (formation_energy.map Option.isSome) corr)
        (formation_energy.filterMap id)
      acceptance := []
      rms := []
      sampled_eci := [lassoCVfit (maskRows (formation_energy.map Option.isSome) corr)
        (formation_energy.filterMap id)]
      proposed_gs := [] } rfl
  rw [h.2]
  simp only [List.nil_append, countP_id_replicate_true, List.length_replicate]
  exact div_self (by exact_mod_cast hiter.ne')

/-- Witness for C5: a concrete one-iteration run with step size 0 on the
triangle dataset (LassoCV output modelled as [0, 0, -2], residual norm 1,
uniform draw 1/2); the theorem evaluates its acceptance probability to 1. -/
theorem acceptance_prob_one_witness :
    (run_eci_monte_carlo id (fun _ _ _ => none) (fun _ => triHull) (fun _ _ => [0, 0, -2])
      idCorr3 compTri feTri 0 1 1 0 (fun _ => ([1, 1, 1], 1/2))).acceptance_prob = 1 :=
  acceptance_prob_one_of_zero_step id (fun _ _ _ => none) (fun _ => triHull)
    (fun _ _ => [0, 0, -2]) idCorr3 compTri feTri 1 1 0 (fun _ => ([1, 1, 1], 1/2))
    (by decide)
    (by norm_num [l1norm])
    (by norm_num [l2normSq, matvec, dot, maskRows, feTri, idCorr3, List.filterMap_cons])
    (fun i _ => by norm_num)
    (fun i _ => rfl)

theorem mcStep_sampled (sqrt : ℚ → ℚ) (griddata : Griddata)
    (corr comp corr_calculated : List (List ℚ)) (f_calc : List ℚ)
    (dft_hull_corr dft_hull_comps : List (List ℚ)) (step : ℚ)
    (sample_frequency burn_in : ℕ) (randoms : ℕ → List ℚ × ℚ) (i : ℕ) (st : MCState) :
    ∃ u : List (List ℚ),
      (mcStep sqrt griddata corr comp corr_calculated f_calc dft_hull_corr dft_hull_comps
          step sample_frequency burn_in randoms i st).sampled_eci =
        st.sampled_eci ++ u ∧
      u.length = if burn_in < i ∧ i % sample_frequency = 0 then 1 else 0 := by
  by_cases hc : burn_in < i ∧ i % sample_frequency = 0
  · exact ⟨[(mcStep sqrt griddata corr comp corr_calculated f_calc dft_hull_corr
        dft_hull_comps step sample_frequency burn_in randoms i st).current_eci],
      by simp [mcStep, hc], by simp [hc]⟩
  · exact ⟨[], by simp [mcStep, hc], by simp [hc]⟩

theorem mc_fold_sampled (sqrt : ℚ → ℚ) (griddata : Griddata)
    (corr comp corr_calculated : List (List ℚ)) (f_calc : List ℚ)
    (dft_hull_corr dft_hull_comps : List (List ℚ)) (step : ℚ)
    (sample_frequency burn_in : ℕ) (randoms : ℕ → List ℚ × ℚ) :
    ∀ (n : ℕ) (st : MCState), ∃ t : List (List ℚ),
      ((List.range n).foldl (fun st i => mcStep sqrt griddata corr comp corr_calculated
          f_calc dft_hull_corr dft_hull_comps step sample_frequency burn_in randoms i st)
          st).sampled_eci = st.sampled_eci ++ t ∧
      t.length = ((List.range n).filter
        (fun i => decide (burn_in < i ∧ i % sample_frequency = 0))).length := by
  intro n
  induction n with
  | zero => intro st; exact ⟨[], by simp, by simp⟩
  | succ n ih =>
    intro st
    obtain ⟨t, ht1, ht2⟩ := ih st
    obtain ⟨u, hu1, hu2⟩ := mcStep_sampled sqrt griddata corr comp corr_calculated
      f_calc dft_hull_corr dft_hull_comps step sample_frequency burn_in randoms n
      ((List.range n).foldl (fun st i => mcStep sqrt griddata corr comp corr_calculated
          f_calc dft_hull_corr dft_hull_comps step sample_frequency burn_in randoms i st) st)
    refine ⟨t ++ u, ?_, ?_⟩
    · rw [List.range_succ, List.foldl_append]
      simp only [List.foldl_cons, List.foldl_nil]
      rw [hu1, ht1, List.append_assoc]
    · rw [List.length_append, ht2, hu2, List.range_succ, List.filter_append,
        List.length_append]
      by_cases hc : burn_in < n ∧ n % sample_frequency = 0
      · simp [hc]
      · simp [hc]

/-- C10: the `sampled_eci` trace returned by `run_eci_monte_carlo` has the
initial LASSO ECI vector as its first row (it is appended before any Monte
Carlo step executes), its row count is one more than the number of steps
satisfying the sampling condition `i > burn_in ∧ i % sample_frequency = 0`,
and in particular it is non-empty even when no step is sampled (for example
when `burn_in ≥ iterations`). -/
theorem sampled_eci_trace_shape (sqrt : ℚ → ℚ) (griddata : Griddata)
    (convexHull : List (List ℚ) → HullData)
    (lassoCVfit : List (List ℚ) → List ℚ → List ℚ)
    (corr comp : List (List ℚ)) (formation_energy : List (Option ℚ))
    (eci_walk_step_size : ℚ) (iterations sample_frequency burn_in : ℕ)
    (randoms : ℕ → List ℚ × ℚ)
    (hfreq : 0 < sample_frequency) :
    (run_eci_monte_carlo sqrt griddata convexHull lassoCVfit corr comp formation_energy
        eci_walk_step_size iterations sample_frequency burn_in randoms).sampled_eci.head? =
      some ((run_eci_monte_carlo sqrt griddata convexHull lassoCVfit corr comp
        formation_energy eci_walk_step_size iterations sample_frequency burn_in
        randoms).lasso_eci) ∧
    (run_eci_monte_carlo sqrt griddata convexHull lassoCVfit corr comp formation_energy
        eci_walk_step_size iterations sample_frequency burn_in randoms).sampled_eci.length =
      1 + ((List.range iterations).filter
        (fun i => decide (burn_in < i ∧ i % sample_frequency = 0))).length ∧
    0 < (run_eci_monte_carlo sqrt griddata convexHull lassoCVfit corr comp formation_energy
        eci_walk_step_size iterations sample_frequency burn_in randoms).sampled_eci.length := by
  clear hfreq
  simp only [run_eci_monte_carlo]
  obtain ⟨t, ht1, ht2⟩ := mc_fold_sampled sqrt griddata corr comp
    (maskRows (formation_energy.map Option.isSome) corr)
    (formation_energy.filterMap id)
    (selectRows (maskRows (formation_energy.map Option.isSome) corr)
      (lower_hull (convexHull (List.zipWith (fun c e => c ++ [e])
        (maskRows (formation_energy.map Option.isSome) comp)
        (formation_energy.filterMap id))) (-2)).2)
    ((selectRows (List.zipWith (fun c e => c ++ [e])
        (maskRows (formation_energy.map Option.isSome) comp)
        (formation_energy.filterMap id))
      (lower_hull (convexHull (List.zipWith (fun c e => c ++ [e])
        (maskRows (formation_energy.map Option.isSome) comp)
        (formation_energy.filterMap id))) (-2)).2).map List.dropLast)
    eci_walk_step_size sample_frequency burn_in randoms iterations
    { current_eci := lassoCVfit (maskRows (formation_energy.map Option.isSome) corr)
        (formation_energy.filterMap id)
      acceptance := []
      rms := []
      sampled_eci := [lassoCVfit (maskRows (formation_energy.map Option.isSome) corr)
        (formation_energy.filterMap id)]
      proposed_gs := [] }
  refine ⟨?_, ?_, ?_⟩
  · rw [ht1]
    rfl
  · rw [ht1, List.length_append, ht2]
    simp
  · rw [ht1, List.length_append]
    simp

/-- Witness for C10: a concrete two-iteration run with burn_in = 5 ≥
iterations, so no step satisfies the sampling condition; the trace still
holds the initial LASSO row and has length 1 + 0. -/
theorem sampled_eci_trace_shape_witness :
    (run_eci_monte_carlo id (fun _ _ _ => none) (fun _ => triHull) (fun _ _ => [0, 0, -2])
        idCorr3 compTri feTri 1 2 1 5 (fun _ => ([1, 1, 1], 1/2))).sampled_eci.head? =
      some ((run_eci_monte_carlo id (fun _ _ _ => none) (fun _ => triHull)
        (fun _ _ => [0, 0, -2]) idCorr3 compTri feTri 1 2 1 5
        (fun _ => ([1, 1, 1], 1/2))).lasso_eci) ∧
    (run_eci_monte_carlo id (fun _ _ _ => none) (fun _ => triHull) (fun _ _ => [0, 0, -2])
        idCorr3 compTri feTri 1 2 1 5 (fun _ => ([1, 1, 1], 1/2))).sampled_eci.length =
      1 + ((List.range 2).filter (fun i => decide (5 < i ∧ i % 1 = 0))).length ∧
    0 < (run_eci_monte_carlo id (fun _ _ _ => none) (fun _ => triHull)
        (fun _ _ => [0, 0, -2]) idCorr3 compTri feTri 1 2 1 5
        (fun _ => ([1, 1, 1], 1/2))).sampled_eci.length :=
  sampled_eci_trace_shape id (fun _ _ _ => none) (fun _ => triHull) (fun _ _ => [0, 0, -2])
    idCorr3 compTri feTri 1 2 1 5 (fun _ => ([1, 1, 1], 1/2)) (by decide)
